import Mathlib

/-!
Verification of the parameter-file position-resolution engine
(`ParametersPositionContext`) and the snippet catalogue (`SnippetManager`)
of the vscode-azurearmtools language layer, shallowly embedded from the
TypeScript sources.  External collaborators (the span utilities, the
document object model, the memoized-promise cache and the telemetry
wrapper) are modelled from the specification, as noted on each definition.
-/

/-- A span of characters `[startIndex, startIndex + length)` in a document.
Modelled from the spec: spans are immutable half-open character-offset
intervals (`language.Span` is not under `src/`). -/
structure Span where
  startIndex : Nat
  length : Nat
deriving DecidableEq

/-- Modelled from the spec: the index one past the last character of the span. -/
def Span.afterEndIndex (s : Span) : Nat := s.startIndex + s.length

/-- Modelled from the spec: `Span.contains` with `language.Contains.extended`
containment — inclusive of both edges of the half-open interval, used for
cursor-touch detection at a token boundary. -/
def Span.containsExtended (s : Span) (index : Nat) : Bool :=
  decide (s.startIndex ≤ index) && decide (index ≤ s.afterEndIndex)

/-- A JSON string literal acting as a name: a raw span (quotes included), a
quote-stripped span and the unquoted string content.  Modelled from the spec
(the document object model is external to `src/`). -/
structure NamedValue where
  span : Span
  unquotedSpan : Span
  unquotedValue : String
deriving DecidableEq

/-- A parameter-value definition of a parameter-values document: owns the
parameter name as written in the values file.  Modelled from the spec. -/
structure ParameterValueDefinition where
  nameValue : NamedValue
deriving DecidableEq

/-- An authoritative parameter declaration living in the associated
template's scope.  Modelled from the spec (external to `src/`). -/
structure ParameterDefinition where
  name : String
deriving DecidableEq

/-- The associated template's top-level scope: parameter-definition lookup by
unquoted name string, case-sensitivity opaque.  Modelled from the spec. -/
structure TopLevelScope where
  getParameterDefinition : String → Option ParameterDefinition

/-- A deployment template: only its top-level scope is consulted here.
Modelled from the spec. -/
structure DeploymentTemplate where
  topLevelScope : TopLevelScope

/-- A parameter-values document: an ordered sequence of parameter-value
definitions.  Modelled from the spec. -/
structure DeploymentParameters where
  parameterValueDefinitions : List ParameterValueDefinition

/-- Kind of a reference site (`ReferenceSiteKind` of `PositionContext.ts`). -/
inductive ReferenceSiteKind where
  | definition
  | reference
deriving DecidableEq

/-- The reference-site record produced by `getReferenceSiteInfo`
(`IReferenceSite` of `PositionContext.ts`). -/
structure IReferenceSite where
  referenceKind : ReferenceSiteKind
  unquotedReferenceSpan : Span
  referenceDocument : DeploymentParameters
  definition : ParameterDefinition
  definitionDocument : DeploymentTemplate

/-- The frozen cursor state of `ParametersPositionContext`: the owning
document, the optional associated template and the resolved character
offset. -/
structure ParametersPositionContext where
  document : DeploymentParameters
  associatedTemplate : Option DeploymentTemplate
  documentCharacterIndex : Nat

/-- The scanning loop of `ParametersPositionContext.getReferenceSiteInfo`:
walk the parameter-value definitions in declared order; at the first one
whose name's raw span contains the offset under extended containment, look
the unquoted name up in the template's top-level scope and either build the
reference site or stop (`break`) with no result. -/
def ParametersPositionContext.findRefSiteLoop (docu : DeploymentParameters)
    (tpl : DeploymentTemplate) (off : Nat) :
    List ParameterValueDefinition → Option IReferenceSite
  | [] => none
  | paramValue :: rest =>
    if paramValue.nameValue.span.containsExtended off then
      match tpl.topLevelScope.getParameterDefinition paramValue.nameValue.unquotedValue with
      | some paramDef =>
          some { referenceKind := ReferenceSiteKind.reference,
                 unquotedReferenceSpan := paramValue.nameValue.unquotedSpan,
                 referenceDocument := docu,
                 definition := paramDef,
                 definitionDocument := tpl }
      | none => none
    else
      ParametersPositionContext.findRefSiteLoop docu tpl off rest

/-- `ParametersPositionContext.getReferenceSiteInfo`: absent when no
associated template is linked, otherwise the result of the scanning loop.
The `_includeDefinition` argument is bound but never read, as in the
source. -/
def ParametersPositionContext.getReferenceSiteInfo (ctx : ParametersPositionContext)
    ( _includeDefinition : Bool) : Option IReferenceSite :=
  match ctx.associatedTemplate with
  | none => none
  | some tpl =>
      ParametersPositionContext.findRefSiteLoop ctx.document tpl
        ctx.documentCharacterIndex ctx.document.parameterValueDefinitions

/-- Modelled from the spec: `DeploymentParameters.findReferencesToDefinition`
(not under `src/`) — the document's list of references to the given
definition, one unquoted span for each parameter value whose unquoted name
is the definition's name. -/
def DeploymentParameters.findReferencesToDefinition (docu : DeploymentParameters)
    (d : ParameterDefinition) : List Span :=
  (docu.parameterValueDefinitions.filter
      (fun pv => pv.nameValue.unquotedValue == d.name)).map
    (fun pv => pv.nameValue.unquotedSpan)

/-- `ParametersPositionContext.getReferencesCore`: re-derive the reference
site (without requiring the definition) and, when present, ask the document
for all references to the resolved definition; absent otherwise. -/
def ParametersPositionContext.getReferencesCore (ctx : ParametersPositionContext) :
    Option (List Span) :=
  match ctx.getReferenceSiteInfo false with
  | some refInfo => some (ctx.document.findReferencesToDefinition refInfo.definition)
  | none => none

/-- Errors that a catalogue load can surface (file IO or malformed JSON).
Modelled from the spec: load failures are fatal for the triggering query. -/
inductive LoadError where
  | ioError
  | parseError
deriving DecidableEq

/-- A raw snippet record as parsed from the fragment-source file
(`ISnippetDefinitionFromFile`).  `prefixText` embeds the record's `prefix`
field (a Lean keyword); `context` may be absent at runtime, as the source
checks. -/
structure ISnippetDefinitionFromFile where
  prefixText : String
  body : List String
  description : String
  context : Option String
deriving DecidableEq

/-- An internal snippet (`ISnippetInternal`): name, trigger prefix
(`prefixText`), description, newline-joined body (`insertText`) and context
tag. -/
structure ISnippetInternal where
  name : String
  prefixText : String
  description : String
  insertText : String
  context : Option String
deriving DecidableEq

/-- `name.startsWith('$')` for the one-character pattern: does the string
begin with a dollar sign? -/
def startsWithDollar (name : String) : Bool :=
  match name.data with
  | [] => false
  | c :: _ => c == '$'

/-- `label.startsWith('"')` for the one-character pattern: does the string
begin with a double quote? -/
def startsWithDoubleQuote (s : String) : Bool :=
  match s.data with
  | [] => false
  | c :: _ => c == '"'

/-- `doesSnippetSupportContext`: the snippet's context tag must equal the
requested context exactly. -/
def doesSnippetSupportContext (snippet : ISnippetInternal) (context : String) : Bool :=
  snippet.context == some context

/-- A JSON whitespace character, embedding the regex class `\s` of the
API-version marker pattern. -/
def isJsonSpace (c : Char) : Bool :=
  c == ' ' || c == '\t' || c == '\n' || c == '\r'

/-- Drop leading whitespace characters. -/
def skipSpaces : List Char → List Char
  | [] => []
  | c :: rest => if isJsonSpace c then skipSpaces rest else c :: rest

/-- The literal key part of the marker pattern: a double-quoted
`apiVersion`. -/
def apiVersionKey : List Char := '"' :: "apiVersion".data ++ ['"']

/-- After the key, the marker pattern allows whitespace and then requires a
colon. -/
def colonAfterSpaces (cs : List Char) : Bool :=
  match skipSpaces cs with
  | ':' :: _ => true
  | [] => false
  | _ :: _ => false

/-- Does the character list contain a match of the source's marker regex
(a quoted `apiVersion` key, optional whitespace, then a colon) at any
position? -/
def hasApiVersionMarker : List Char → Bool
  | [] => false
  | c :: rest =>
    ((c :: rest).take 12 == apiVersionKey && colonAfterSpaces ((c :: rest).drop 12))
      || hasApiVersionMarker rest

/-- Modelled from the spec: the host product name (`constants.ts` is not
under `src/`); its value is irrelevant to the claims. -/
def extensionName : String := "Azure Resource Manager Tools"

/-- `convertSnippet`: build the internal snippet (joining body lines with
newlines) and collect the advisory warnings the source would emit through
the notification UI — a missing context tag, and the API-version/resources
consistency heuristic. -/
def convertSnippet (snippetName : String) (snippetFromFile : ISnippetDefinitionFromFile) :
    ISnippetInternal × List String :=
  let contextWarnings : List String :=
    match snippetFromFile.context with
    | none => ["Snippet \"" ++ snippetName ++ "\" has no context specified"]
    | some _ => []
  let body : String := String.intercalate "\n" snippetFromFile.body
  let snippet : ISnippetInternal :=
    { name := snippetName,
      prefixText := snippetFromFile.prefixText,
      description := snippetFromFile.description,
      insertText := body,
      context := snippetFromFile.context }
  let looksLikeResource : Bool :=
    snippetFromFile.body.any (fun line => hasApiVersionMarker line.data)
  let isResource : Bool := doesSnippetSupportContext snippet "resources"
  let resourceWarnings : List String :=
    if isResource then
      if !looksLikeResource then
        ["Snippet \"" ++ snippetName ++ "\" is marked with the resources context but does not look like a resource"]
      else []
    else
      if looksLikeResource then
        ["Snippet \"" ++ snippetName ++ "\" looks like a resource but is not supported in the resources context"]
      else []
  (snippet, contextWarnings ++ resourceWarnings)

/-- The name-keyed snippet mapping, in insertion order. -/
abbrev SnippetMap := List (String × ISnippetInternal)

/-- The fragment-source file after UTF-8 read, comment stripping and JSON
parsing: top-level keys in declaration order, mapped to raw records. -/
abbrev ParsedSource := List (String × ISnippetDefinitionFromFile)

/-- The map-building loop inside `SnippetManager.getMap`: skip every
top-level key beginning with `$`, convert each remaining record, keep the
collected warnings. -/
def buildSnippetMap : ParsedSource → SnippetMap × List String
  | [] => ([], [])
  | (name, snippetFromFile) :: rest =>
    let tail := buildSnippetMap rest
    if startsWithDollar name then tail
    else
      let conv := convertSnippet name snippetFromFile
      ((name, conv.1) :: tail.1, conv.2 ++ tail.2)

/-- Modelled from the spec: `CachedPromise` (not under `src/`) — a
single-flight memoized future, holding at most one settled successful
value. -/
structure CachedPromise (α : Type) where
  cache : Option α

/-- Modelled from the spec: `CachedPromise.getOrCachePromise` — answer from
the cache when it is filled; otherwise run the loader once, cache a
successful value, and on failure leave the cache cleared so the next query
retries.  The returned `Bool` records whether the loader ran. -/
def CachedPromise.getOrCachePromise {α ε : Type} (c : CachedPromise α)
    (load : Unit → Except ε α) : CachedPromise α × Bool × Except ε α :=
  match c.cache with
  | some v => (c, false, Except.ok v)
  | none =>
    match load () with
    | Except.ok v => (⟨some v⟩, true, Except.ok v)
    | Except.error e => (⟨none⟩, true, Except.error e)

/-- The loader body of `SnippetManager.getMap`: the file read / strip /
parse pipeline (whose outcome is the `source` argument) followed by the
map-building loop. -/
def SnippetManager.loadSnippetMap (source : Except LoadError ParsedSource) :
    Except LoadError SnippetMap :=
  source.map (fun parsed => (buildSnippetMap parsed).1)

/-- `SnippetManager.getMap`: the memoized catalogue load.  `source` is the
outcome the file-read-and-parse pipeline would produce if it ran; the
returned `Bool` records whether a file read was performed. -/
def SnippetManager.getMap (c : CachedPromise SnippetMap)
    (source : Except LoadError ParsedSource) :
    CachedPromise SnippetMap × Bool × Except LoadError SnippetMap :=
  c.getOrCachePromise (fun _ => SnippetManager.loadSnippetMap source)

/-- `SnippetManager.getSnippets`: load (or reuse) the catalogue, then keep
the entries supporting the requested context. -/
def SnippetManager.getSnippets (c : CachedPromise SnippetMap)
    (source : Except LoadError ParsedSource) (context : String) :
    CachedPromise SnippetMap × Bool × Except LoadError (List ISnippetInternal) :=
  let r := SnippetManager.getMap c source
  (r.1, r.2.1,
    r.2.2.map (fun m =>
      (m.map Prod.snd).filter (fun s => doesSnippetSupportContext s context)))

/-- Completion-item kinds (the slice of `Completion.CompletionKind` this
code reaches). -/
inductive CompletionKind where
  | tleFunction
  | parameter
  | variable
  | property
  | snippet
deriving DecidableEq

/-- Completion display priorities (`Completion.CompletionPriority`). -/
inductive CompletionPriority where
  | normal
  | high
  | low
deriving DecidableEq

/-- The completion item built by `getSnippetsAsCompletionItems`
(`Completion.Item`, restricted to the fields this code sets). -/
structure CompletionItem where
  label : String
  snippetName : String
  detail : String
  insertText : String
  span : Span
  kind : CompletionKind
  priority : CompletionPriority
deriving DecidableEq

/-- The item-building loop of `getSnippetsAsCompletionItems`: for each map
entry supporting the context, quote-wrap the prefix label when requested
and it is not already quoted, then build the item — the displayed label is
the (possibly quoted) prefix wrapped in literal curly braces, exactly as
the source writes it. -/
def snippetCompletionItemsFor (m : SnippetMap) (context : String) (span : Span)
    (addDoubleQuotes : Bool) : List CompletionItem :=
  match m with
  | [] => []
  | (name, snippet) :: rest =>
    let tail := snippetCompletionItemsFor rest context span addDoubleQuotes
    if doesSnippetSupportContext snippet context then
      let detail := snippet.description ++ " (" ++ extensionName ++ ")"
      let label0 := snippet.prefixText
      let label :=
        if addDoubleQuotes && !startsWithDoubleQuote label0 then "\"" ++ label0 ++ "\""
        else label0
      { label := "\x7b" ++ label ++ "\x7d",
        snippetName := name,
        detail := detail,
        insertText := snippet.insertText,
        span := span,
        kind := CompletionKind.snippet,
        priority := CompletionPriority.low } :: tail
    else tail

/-- Modelled from the spec: the telemetry wrapper
(`callWithTelemetryAndErrorHandling`, an external collaborator) runs the
operation and swallows any internal failure, yielding absent instead of
propagating. -/
def callWithTelemetryAndErrorHandling {α ε : Type} : Except ε α → Option α
  | Except.ok a => some a
  | Except.error _ => none

/-- `SnippetManager.getSnippetsAsCompletionItems`: load (or reuse) the
catalogue and build the completion items, the whole operation wrapped by
the failure-swallowing telemetry wrapper, with `?? []` turning an absent
result into the empty list.  The trigger character is bound but unused, as
in the source. -/
def SnippetManager.getSnippetsAsCompletionItems (c : CachedPromise SnippetMap)
    (source : Except LoadError ParsedSource) (context : String) (span : Span)
    ( _triggerCharacter : Option String) (addDoubleQuotes : Bool) :
    CachedPromise SnippetMap × List CompletionItem :=
  let r := SnippetManager.getMap c source
  (r.1,
    (callWithTelemetryAndErrorHandling
        (r.2.2.map (fun m => snippetCompletionItemsFor m context span addDoubleQuotes))).getD [])

deriving instance DecidableEq for Except

/-- Concrete example: the name `"p1"` written at offsets 10..13 (raw span
with quotes), unquoted content at offsets 11..12. -/
def exName1 : NamedValue :=
  { span := ⟨10, 4⟩, unquotedSpan := ⟨11, 2⟩, unquotedValue := "p1" }

/-- Concrete example: the name `"p2"` written at offsets 20..23. -/
def exName2 : NamedValue :=
  { span := ⟨20, 4⟩, unquotedSpan := ⟨21, 2⟩, unquotedValue := "p2" }

/-- Concrete example: a parameter-values document defining `p1` and `p2`. -/
def exDoc : DeploymentParameters := ⟨[⟨exName1⟩, ⟨exName2⟩]⟩

/-- Concrete example: a template scope declaring parameters `p1` and `p2`. -/
def exScope : TopLevelScope :=
  ⟨fun n => if n == "p1" then some ⟨"p1"⟩ else if n == "p2" then some ⟨"p2"⟩ else none⟩

/-- Concrete example: the associated template. -/
def exTpl : DeploymentTemplate := ⟨exScope⟩

/-- Concrete example: a parameter value named `"q1"` that has no declaration
in `exScope`, written at the same offsets as `exName1`. -/
def exNameOrphan : NamedValue :=
  { span := ⟨10, 4⟩, unquotedSpan := ⟨11, 2⟩, unquotedValue := "q1" }

/-- Concrete example: a parameter value named `"p1"` whose raw span also
contains offset 11, declared after the orphan one. -/
def exNameLater : NamedValue :=
  { span := ⟨10, 4⟩, unquotedSpan := ⟨11, 2⟩, unquotedValue := "p1" }

/-- Concrete example: a document whose first containing name is an orphan
while a later containing name would resolve. -/
def exDocOrphanFirst : DeploymentParameters := ⟨[⟨exNameOrphan⟩, ⟨exNameLater⟩]⟩

/-- Concrete example: the spec's one-entry fragment source. -/
def exParsed : ParsedSource :=
  [("arm-vnet",
    { prefixText := "vnet",
      body := ["\x7b \"apiVersion\": \"2020-01-01\" \x7d"],
      description := "VNet",
      context := some "resources" })]

/-- Concrete example: a scope declaring every name, each definition named by
the queried string — a well-formed scope in the sense that lookup returns a
definition carrying the looked-up name. -/
def exScopeAll : TopLevelScope := ⟨fun n => some ⟨n⟩⟩

/-- Concrete example: a template with the all-names scope. -/
def exTplAll : DeploymentTemplate := ⟨exScopeAll⟩

/-- The scanning loop yields nothing on an empty definition list. -/
theorem findRefSiteLoop_nil (docu : DeploymentParameters) (tpl : DeploymentTemplate)
    (off : Nat) : ParametersPositionContext.findRefSiteLoop docu tpl off [] = none := rfl

/-- If no definition's name raw span contains the offset, the scanning loop
yields nothing. -/
theorem findRefSiteLoop_none_of_not_contains (docu : DeploymentParameters)
    (tpl : DeploymentTemplate) (off : Nat) (l : List ParameterValueDefinition)
    (h : ∀ pv ∈ l, pv.nameValue.span.containsExtended off = false) :
    ParametersPositionContext.findRefSiteLoop docu tpl off l = none := by
  induction l with
  | nil => rfl
  | cons x rest ih =>
    have hx : x.nameValue.span.containsExtended off = false := h x (List.mem_cons_self x rest)
    simp only [ParametersPositionContext.findRefSiteLoop, hx, Bool.false_eq_true, if_false]
    exact ih (fun pv hpv => h pv (List.mem_cons_of_mem x hpv))

/-- If `pv` is the unique definition whose name raw span contains the
offset, the scanning loop's outcome is exactly the scope lookup of `pv`'s
unquoted name, mapped to a reference site. -/
theorem findRefSiteLoop_unique_containing (docu : DeploymentParameters)
    (tpl : DeploymentTemplate) (off : Nat) (l : List ParameterValueDefinition)
    (pv : ParameterValueDefinition) (hmem : pv ∈ l)
    (hc : pv.nameValue.span.containsExtended off = true)
    (huniq : ∀ pv' ∈ l, pv'.nameValue.span.containsExtended off = true → pv' = pv) :
    ParametersPositionContext.findRefSiteLoop docu tpl off l =
      (tpl.topLevelScope.getParameterDefinition pv.nameValue.unquotedValue).map
        (fun d =>
          { referenceKind := ReferenceSiteKind.reference,
            unquotedReferenceSpan := pv.nameValue.unquotedSpan,
            referenceDocument := docu,
            definition := d,
            definitionDocument := tpl }) := by
  induction l with
  | nil => exact absurd hmem (List.not_mem_nil pv)
  | cons x rest ih =>
    by_cases hx : x.nameValue.span.containsExtended off = true
    · have hxpv : x = pv := huniq x (List.mem_cons_self x rest) hx
      subst hxpv
      simp only [ParametersPositionContext.findRefSiteLoop, hx, if_true]
      cases tpl.topLevelScope.getParameterDefinition x.nameValue.unquotedValue with
      | none => rfl
      | some d => rfl
    · have hxne : x ≠ pv := by
        intro heq
        exact hx (heq ▸ hc)
      have hmem' : pv ∈ rest := by
        rcases List.mem_cons.mp hmem with h1 | h1
        · exact absurd h1.symm hxne
        · exact h1
      have hx' : x.nameValue.span.containsExtended off = false := by
        cases h : x.nameValue.span.containsExtended off with
        | false => rfl
        | true => exact absurd h hx
      simp only [ParametersPositionContext.findRefSiteLoop, hx', Bool.false_eq_true, if_false]
      exact ih hmem' (fun pv' h1 h2 => huniq pv' (List.mem_cons_of_mem x h1) h2)

/-- Inversion: a reference site produced by the scanning loop comes from a
member of the list whose raw name span contains the offset, whose unquoted
name looks up to the site's definition, and whose unquoted span is the
site's reference span. -/
theorem findRefSiteLoop_some_inv (docu : DeploymentParameters)
    (tpl : DeploymentTemplate) (off : Nat) (l : List ParameterValueDefinition)
    (site : IReferenceSite)
    (h : ParametersPositionContext.findRefSiteLoop docu tpl off l = some site) :
    ∃ pv, pv ∈ l ∧ pv.nameValue.span.containsExtended off = true ∧
      tpl.topLevelScope.getParameterDefinition pv.nameValue.unquotedValue =
        some site.definition ∧
      site.unquotedReferenceSpan = pv.nameValue.unquotedSpan := by
  induction l with
  | nil => exact absurd h (by simp [ParametersPositionContext.findRefSiteLoop])
  | cons x rest ih =>
    by_cases hx : x.nameValue.span.containsExtended off = true
    · refine ⟨x, List.mem_cons_self x rest, hx, ?_⟩
      simp only [ParametersPositionContext.findRefSiteLoop, hx, if_true] at h
      cases hd : tpl.topLevelScope.getParameterDefinition x.nameValue.unquotedValue with
      | none => rw [hd] at h; exact absurd h (by simp)
      | some d =>
        rw [hd] at h
        have hsite := Option.some.inj h
        constructor
        · rw [← hsite]
        · rw [← hsite]
    · have hx' : x.nameValue.span.containsExtended off = false := by
        cases hb : x.nameValue.span.containsExtended off with
        | false => rfl
        | true => exact absurd hb hx
      simp only [ParametersPositionContext.findRefSiteLoop, hx', Bool.false_eq_true,
        if_false] at h
      rcases ih h with ⟨pv, hmem, hc, hd, hs⟩
      exact ⟨pv, List.mem_cons_of_mem x hmem, hc, hd, hs⟩

/-- Claim C1: with an associated template linked, for a cursor offset whose
(unique) containing parameter-value name raw span is `pv`'s, under extended
containment, `getReferenceSiteInfo` returns a reference site iff the
template's top-level scope resolves the unquoted name — the site being of
kind reference, carrying the matched name's unquoted span, this document,
the found definition and the template; for an offset outside every
parameter-name raw span, and whenever no associated template is linked, it
returns absent. -/
theorem getReferenceSiteInfo_characterization (docu : DeploymentParameters)
    (tpl : DeploymentTemplate) (off : Nat) (b : Bool) :
    (∀ pv, pv ∈ docu.parameterValueDefinitions →
        pv.nameValue.span.containsExtended off = true →
        (∀ pv' ∈ docu.parameterValueDefinitions,
            pv'.nameValue.span.containsExtended off = true → pv' = pv) →
        ParametersPositionContext.getReferenceSiteInfo ⟨docu, some tpl, off⟩ b =
          (tpl.topLevelScope.getParameterDefinition pv.nameValue.unquotedValue).map
            (fun d =>
              { referenceKind := ReferenceSiteKind.reference,
                unquotedReferenceSpan := pv.nameValue.unquotedSpan,
                referenceDocument := docu,
                definition := d,
                definitionDocument := tpl }))
    ∧ ((∀ pv ∈ docu.parameterValueDefinitions,
          pv.nameValue.span.containsExtended off = false) →
        ParametersPositionContext.getReferenceSiteInfo ⟨docu, some tpl, off⟩ b = none)
    ∧ ParametersPositionContext.getReferenceSiteInfo ⟨docu, none, off⟩ b = none := by
  refine ⟨?_, ?_, rfl⟩
  · intro pv hmem hc huniq
    exact findRefSiteLoop_unique_containing docu tpl off
      docu.parameterValueDefinitions pv hmem hc huniq
  · intro h
    exact findRefSiteLoop_none_of_not_contains docu tpl off
      docu.parameterValueDefinitions h

/-- Witness for C1: at offset 11 (inside the raw span of `"p1"`, the unique
containing name of `exDoc`) the claim's characterization instantiates to a
resolved reference site; its hypotheses hold by evaluation. -/
theorem getReferenceSiteInfo_characterization_witness :
    ParametersPositionContext.getReferenceSiteInfo ⟨exDoc, some exTpl, 11⟩ true =
      (exTpl.topLevelScope.getParameterDefinition exName1.unquotedValue).map
        (fun d =>
          { referenceKind := ReferenceSiteKind.reference,
            unquotedReferenceSpan := exName1.unquotedSpan,
            referenceDocument := exDoc,
            definition := d,
            definitionDocument := exTpl }) :=
  (getReferenceSiteInfo_characterization exDoc exTpl 11 true).1 ⟨exName1⟩
    (by decide)
    (by decide)
    (by decide)

/-- Claim C7: the scan stops at the first parameter-value definition whose
name raw span contains the cursor, regardless of outcome — when that first
containing name has no matching parameter definition in the template's
scope, the result is absent even if a later definition would resolve. -/
theorem getReferenceSiteInfo_first_match_stops (docu : DeploymentParameters)
    (tpl : DeploymentTemplate) (off : Nat) (b : Bool)
    (before : List ParameterValueDefinition) (pv : ParameterValueDefinition)
    (later : List ParameterValueDefinition)
    (hdoc : docu.parameterValueDefinitions = before ++ pv :: later)
    (hbefore : ∀ p ∈ before, p.nameValue.span.containsExtended off = false)
    (hc : pv.nameValue.span.containsExtended off = true)
    (hnodef : tpl.topLevelScope.getParameterDefinition pv.nameValue.unquotedValue = none) :
    ParametersPositionContext.getReferenceSiteInfo ⟨docu, some tpl, off⟩ b = none := by
  show ParametersPositionContext.findRefSiteLoop docu tpl off
    docu.parameterValueDefinitions = none
  rw [hdoc]
  clear hdoc
  induction before with
  | nil =>
    simp only [List.nil_append, ParametersPositionContext.findRefSiteLoop, hc, if_true,
      hnodef]
  | cons x rest ih =>
    have hx : x.nameValue.span.containsExtended off = false :=
      hbefore x (List.mem_cons_self x rest)
    simp only [List.cons_append, ParametersPositionContext.findRefSiteLoop, hx,
      Bool.false_eq_true, if_false]
    exact ih (fun p hp => hbefore p (List.mem_cons_of_mem x hp))

/-- Witness for C7: in `exDocOrphanFirst` the first name containing offset
11 is the orphan `"q1"`; the scan returns absent although the later
definition `"p1"` also contains 11 and resolves in `exScope`. -/
theorem getReferenceSiteInfo_first_match_stops_witness :
    ParametersPositionContext.getReferenceSiteInfo ⟨exDocOrphanFirst, some exTpl, 11⟩ false =
      none :=
  getReferenceSiteInfo_first_match_stops exDocOrphanFirst exTpl 11 false
    [] ⟨exNameOrphan⟩ [⟨exNameLater⟩] rfl
    (by intro p hp; exact absurd hp (List.not_mem_nil p))
    (by decide)
    (by decide)

/-- Claim C9: the `_includeDefinition` argument of `getReferenceSiteInfo`
has no influence on the output — the two runs agree for every context and
every pair of flag values. -/
theorem getReferenceSiteInfo_ignores_includeDefinition
    (ctx : ParametersPositionContext) (b1 b2 : Bool) :
    ctx.getReferenceSiteInfo b1 = ctx.getReferenceSiteInfo b2 := rfl

/-- Claim C10: every returned reference site carries the unquoted
(quote-stripped) span of the matched name while containment was tested on
the raw span; concretely, with the cursor at offset 10 — the opening quote
of `"p1"` — a site is returned whose unquoted span does not contain the
queried offset even under extended containment. -/
theorem getReferenceSiteInfo_unquoted_span_boundary :
    (∀ (docu : DeploymentParameters) (tpl : DeploymentTemplate) (off : Nat) (b : Bool)
        (site : IReferenceSite),
        ParametersPositionContext.getReferenceSiteInfo ⟨docu, some tpl, off⟩ b = some site →
        ∃ pv, pv ∈ docu.parameterValueDefinitions ∧
          pv.nameValue.span.containsExtended off = true ∧
          site.unquotedReferenceSpan = pv.nameValue.unquotedSpan)
    ∧ (ParametersPositionContext.getReferenceSiteInfo ⟨exDoc, some exTpl, 10⟩ false).map
        IReferenceSite.unquotedReferenceSpan = some ⟨11, 2⟩
    ∧ Span.containsExtended ⟨11, 2⟩ 10 = false := by
  refine ⟨?_, by decide, by decide⟩
  intro docu tpl off b site h
  rcases findRefSiteLoop_some_inv docu tpl off docu.parameterValueDefinitions site h
    with ⟨pv, hmem, hc, _, hs⟩
  exact ⟨pv, hmem, hc, hs⟩

/-- Witness for C10: the general conjunct instantiated at the concrete
boundary input — the site returned at offset 10 comes from a containing
raw span and carries the corresponding unquoted span. -/
theorem getReferenceSiteInfo_unquoted_span_boundary_witness :
    ∃ pv, pv ∈ exDoc.parameterValueDefinitions ∧
      pv.nameValue.span.containsExtended 10 = true ∧
      Span.mk 11 2 = pv.nameValue.unquotedSpan :=
  getReferenceSiteInfo_unquoted_span_boundary.1 exDoc exTpl 10 false
    { referenceKind := ReferenceSiteKind.reference,
      unquotedReferenceSpan := ⟨11, 2⟩,
      referenceDocument := exDoc,
      definition := ⟨"p1"⟩,
      definitionDocument := exTpl }
    rfl

/-- Claim C4: when the associated template's scope is well-formed (looked-up
definitions carry the looked-up name), the reference-list query is absent
exactly when `getReferenceSiteInfo` is absent; otherwise it returns the
document's list of references to the resolved definition, and that list
contains the originating reference span itself. -/
theorem getReferencesCore_absence_and_self_reference (ctx : ParametersPositionContext)
    (hscope : ∀ tpl, ctx.associatedTemplate = some tpl →
        ∀ n d, tpl.topLevelScope.getParameterDefinition n = some d → d.name = n) :
    (ctx.getReferencesCore = none ↔ ctx.getReferenceSiteInfo false = none)
    ∧ ∀ site, ctx.getReferenceSiteInfo false = some site →
        ctx.getReferencesCore =
          some (ctx.document.findReferencesToDefinition site.definition)
        ∧ site.unquotedReferenceSpan ∈
            ctx.document.findReferencesToDefinition site.definition := by
  constructor
  · cases h : ctx.getReferenceSiteInfo false with
    | none => simp [ParametersPositionContext.getReferencesCore, h]
    | some site => simp [ParametersPositionContext.getReferencesCore, h]
  · intro site hsite
    refine ⟨by simp [ParametersPositionContext.getReferencesCore, hsite], ?_⟩
    cases hT : ctx.associatedTemplate with
    | none =>
      rw [ParametersPositionContext.getReferenceSiteInfo, hT] at hsite
      exact absurd hsite (by simp)
    | some tpl =>
      rw [ParametersPositionContext.getReferenceSiteInfo, hT] at hsite
      rcases findRefSiteLoop_some_inv ctx.document tpl ctx.documentCharacterIndex
          ctx.document.parameterValueDefinitions site hsite with ⟨pv, hmem, _, hd, hs⟩
      have hname : site.definition.name = pv.nameValue.unquotedValue := hscope tpl hT _ _ hd
      have hpred : (pv.nameValue.unquotedValue == site.definition.name) = true := by
        rw [hname]
        exact beq_self_eq_true _
      have hmemf : pv ∈ ctx.document.parameterValueDefinitions.filter
          (fun q => q.nameValue.unquotedValue == site.definition.name) :=
        List.mem_filter.mpr ⟨hmem, hpred⟩
      rw [hs]
      simp only [DeploymentParameters.findReferencesToDefinition]
      exact List.mem_map_of_mem (fun q => q.nameValue.unquotedSpan) hmemf

/-- Witness for C4: with the all-names scope and the cursor at offset 11,
the query resolves and the returned reference list contains the originating
unquoted span; the well-formedness hypothesis holds by construction. -/
theorem getReferencesCore_absence_and_self_reference_witness :
    ((ParametersPositionContext.getReferencesCore ⟨exDoc, some exTplAll, 11⟩ = none ↔
        ParametersPositionContext.getReferenceSiteInfo ⟨exDoc, some exTplAll, 11⟩ false = none)
      ∧ ∀ site,
          ParametersPositionContext.getReferenceSiteInfo ⟨exDoc, some exTplAll, 11⟩ false =
            some site →
          ParametersPositionContext.getReferencesCore ⟨exDoc, some exTplAll, 11⟩ =
            some (exDoc.findReferencesToDefinition site.definition)
          ∧ site.unquotedReferenceSpan ∈ exDoc.findReferencesToDefinition site.definition) :=
  getReferencesCore_absence_and_self_reference ⟨exDoc, some exTplAll, 11⟩
    (by
      intro tpl htpl n d hd
      cases htpl
      cases Option.some.inj hd
      rfl)

/-- Claim C3: the catalogue is loaded at most once until invalidated — on a
fresh manager the first query performs the read, a second query after a
successful load performs none and observes the same map, while a failed
load leaves the memoization cleared and the error surfaced, so any
subsequent query performs the read again. -/
theorem getMap_single_flight_and_retry (source : Except LoadError ParsedSource) :
    (SnippetManager.getMap ⟨none⟩ source).2.1 = true
    ∧ (∀ parsed, source = Except.ok parsed →
        (SnippetManager.getMap (SnippetManager.getMap ⟨none⟩ source).1 source).2.1 = false
        ∧ (SnippetManager.getMap (SnippetManager.getMap ⟨none⟩ source).1 source).2.2 =
            (SnippetManager.getMap ⟨none⟩ source).2.2)
    ∧ (∀ e, source = Except.error e →
        (SnippetManager.getMap ⟨none⟩ source).1.cache = none
        ∧ (SnippetManager.getMap ⟨none⟩ source).2.2 = Except.error e
        ∧ ∀ source2 : Except LoadError ParsedSource,
            (SnippetManager.getMap (SnippetManager.getMap ⟨none⟩ source).1 source2).2.1 =
              true) := by
  cases source with
  | ok parsed =>
    refine ⟨rfl, ?_, ?_⟩
    · intro p hp
      exact ⟨rfl, rfl⟩
    · intro e he
      exact Except.noConfusion he
  | error e =>
    refine ⟨rfl, ?_, ?_⟩
    · intro p hp
      exact Except.noConfusion hp
    · intro e' he'
      cases he'
      refine ⟨rfl, rfl, ?_⟩
      intro source2
      cases source2 with
      | ok p2 => rfl
      | error e2 => rfl

/-- Witness for C3: with the concrete one-entry source, the second query
performs no read; with a concrete failing source, the cache stays empty. -/
theorem getMap_single_flight_and_retry_witness :
    (SnippetManager.getMap
        (SnippetManager.getMap ⟨none⟩ (Except.ok exParsed)).1 (Except.ok exParsed)).2.1 =
      false
    ∧ (SnippetManager.getMap ⟨none⟩ (Except.error LoadError.ioError)).1.cache = none :=
  ⟨((getMap_single_flight_and_retry (Except.ok exParsed)).2.1 exParsed rfl).1,
   ((getMap_single_flight_and_retry (Except.error LoadError.ioError)).2.2
      LoadError.ioError rfl).1⟩

/-- Claim C5: once the catalogue is loaded, `getSnippets` returns exactly
the entries whose context tag equals the requested tag — membership in the
result is equivalent to being a catalogue entry with that exact tag — and a
tag matching no entry yields the empty list, not an error. -/
theorem getSnippets_filters_by_context (c : CachedPromise SnippetMap)
    (source : Except LoadError ParsedSource) (context : String) (m : SnippetMap)
    (h : (SnippetManager.getMap c source).2.2 = Except.ok m) :
    (SnippetManager.getSnippets c source context).2.2 =
      Except.ok ((m.map Prod.snd).filter (fun s => doesSnippetSupportContext s context))
    ∧ (∀ s, s ∈ (m.map Prod.snd).filter (fun s => doesSnippetSupportContext s context) ↔
        s ∈ m.map Prod.snd ∧ s.context = some context)
    ∧ ((∀ s ∈ m.map Prod.snd, s.context ≠ some context) →
        (SnippetManager.getSnippets c source context).2.2 = Except.ok []) := by
  have h1 : (SnippetManager.getSnippets c source context).2.2 =
      Except.ok ((m.map Prod.snd).filter (fun s => doesSnippetSupportContext s context)) := by
    simp only [SnippetManager.getSnippets]
    rw [h]
    rfl
  refine ⟨h1, ?_, ?_⟩
  · intro s
    simp [List.mem_filter, doesSnippetSupportContext]
  · intro hall
    rw [h1]
    have : (m.map Prod.snd).filter (fun s => doesSnippetSupportContext s context) = [] := by
      rw [List.filter_eq_nil_iff]
      intro s hs
      simp only [doesSnippetSupportContext, beq_iff_eq]
      exact fun hcon => hall s hs hcon
    rw [this]

/-- Witness for C5: the concrete one-entry catalogue queried for
`resources`, with the load hypothesis discharged by evaluation. -/
theorem getSnippets_filters_by_context_witness :
    (SnippetManager.getSnippets ⟨none⟩ (Except.ok exParsed) "resources").2.2 =
      Except.ok ((((buildSnippetMap exParsed).1).map Prod.snd).filter
        (fun s => doesSnippetSupportContext s "resources")) :=
  (getSnippets_filters_by_context ⟨none⟩ (Except.ok exParsed) "resources"
    (buildSnippetMap exParsed).1 rfl).1

/-- The converted snippet's insertion text is the record's body lines joined
with newline characters. -/
theorem convertSnippet_insertText (n : String) (r : ISnippetDefinitionFromFile) :
    (convertSnippet n r).1.insertText = String.intercalate "\n" r.body := rfl

/-- Claim C6: the load procedure keeps exactly the top-level keys not
beginning with `$`, converting each kept record (so its insertion text is
the newline-join of its body lines); on the spec's one-entry fragment
source, `getSnippets` for `resources` yields the single `arm-vnet` snippet
whose insertion text is the single body line, and for `parameterValues`
the empty list. -/
theorem buildSnippetMap_skips_dollar_and_joins_body :
    (∀ parsed : ParsedSource, ∀ name s, (name, s) ∈ (buildSnippetMap parsed).1 →
        startsWithDollar name = false ∧
        ∃ raw, (name, raw) ∈ parsed ∧ s = (convertSnippet name raw).1 ∧
          s.insertText = String.intercalate "\n" raw.body)
    ∧ (∀ parsed : ParsedSource, ∀ name raw, (name, raw) ∈ parsed →
        startsWithDollar name = false →
        (name, (convertSnippet name raw).1) ∈ (buildSnippetMap parsed).1)
    ∧ (SnippetManager.getSnippets ⟨none⟩ (Except.ok exParsed) "resources").2.2 =
        Except.ok [{ name := "arm-vnet", prefixText := "vnet", description := "VNet",
                     insertText := "\x7b \"apiVersion\": \"2020-01-01\" \x7d",
                     context := some "resources" }]
    ∧ (SnippetManager.getSnippets ⟨none⟩ (Except.ok exParsed) "parameterValues").2.2 =
        Except.ok [] := by
  refine ⟨?_, ?_, by decide, by decide⟩
  · intro parsed
    induction parsed with
    | nil =>
      intro name s hmem
      exact absurd hmem (List.not_mem_nil _)
    | cons hd0 rest ih =>
      obtain ⟨n0, r0⟩ := hd0
      intro name s hmem
      by_cases hdol : startsWithDollar n0 = true
      · simp only [buildSnippetMap, hdol, if_true] at hmem
        rcases ih name s hmem with ⟨hstart, raw, hrawmem, hconv, hins⟩
        exact ⟨hstart, raw, List.mem_cons_of_mem _ hrawmem, hconv, hins⟩
      · have hdol' : startsWithDollar n0 = false := by
          cases hb : startsWithDollar n0 with
          | false => rfl
          | true => exact absurd hb hdol
        simp only [buildSnippetMap, hdol', Bool.false_eq_true, if_false] at hmem
        rcases List.mem_cons.mp hmem with h1 | h1
        · have hn : name = n0 := congrArg Prod.fst h1
          have hs : s = (convertSnippet n0 r0).1 := congrArg Prod.snd h1
          subst hn
          refine ⟨hdol', r0, List.mem_cons_self _ _, hs, ?_⟩
          rw [hs]
          exact convertSnippet_insertText name r0
        · rcases ih name s h1 with ⟨hstart, raw, hrawmem, hconv, hins⟩
          exact ⟨hstart, raw, List.mem_cons_of_mem _ hrawmem, hconv, hins⟩
  · intro parsed
    induction parsed with
    | nil =>
      intro name raw hmem
      exact absurd hmem (List.not_mem_nil _)
    | cons hd0 rest ih =>
      obtain ⟨n0, r0⟩ := hd0
      intro name raw hmem hstart
      rcases List.mem_cons.mp hmem with h1 | h1
      · have hn : name = n0 := congrArg Prod.fst h1
        have hr : raw = r0 := congrArg Prod.snd h1
        subst hn
        subst hr
        simp only [buildSnippetMap, hstart, Bool.false_eq_true, if_false]
        exact List.mem_cons_self _ _
      · by_cases hdol : startsWithDollar n0 = true
        · simp only [buildSnippetMap, hdol, if_true]
          exact ih name raw h1 hstart
        · have hdol' : startsWithDollar n0 = false := by
            cases hb : startsWithDollar n0 with
            | false => rfl
            | true => exact absurd hb hdol
          simp only [buildSnippetMap, hdol', Bool.false_eq_true, if_false]
          exact List.mem_cons_of_mem _ (ih name raw h1 hstart)

/-- Witness for C6: the general conjunct instantiated at the concrete
catalogue entry, with membership discharged by evaluation. -/
theorem buildSnippetMap_skips_dollar_and_joins_body_witness :
    startsWithDollar "arm-vnet" = false ∧
    ∃ raw, ("arm-vnet", raw) ∈ exParsed ∧
      ({ name := "arm-vnet", prefixText := "vnet", description := "VNet",
         insertText := "\x7b \"apiVersion\": \"2020-01-01\" \x7d",
         context := some "resources" } : ISnippetInternal) =
        (convertSnippet "arm-vnet" raw).1 ∧
      ({ name := "arm-vnet", prefixText := "vnet", description := "VNet",
         insertText := "\x7b \"apiVersion\": \"2020-01-01\" \x7d",
         context := some "resources" } : ISnippetInternal).insertText =
        String.intercalate "\n" raw.body :=
  buildSnippetMap_skips_dollar_and_joins_body.1 exParsed "arm-vnet"
    { name := "arm-vnet", prefixText := "vnet", description := "VNet",
      insertText := "\x7b \"apiVersion\": \"2020-01-01\" \x7d",
      context := some "resources" }
    (by decide)

/-- Claim C2, evaluated at a failing input: the source builds the display
label by wrapping the (optionally quoted) prefix in literal curly braces
(the `{${label}}` template marked `//asdf`), so the item produced for the
`vnet` prefix is labelled `\x7bvnet\x7d`, not `vnet`, in both quote modes —
while the low display priority and the requested replacement span are
carried verbatim, as the claim states. -/
theorem getSnippetsAsCompletionItems_label_eval :
    ((SnippetManager.getSnippetsAsCompletionItems ⟨none⟩ (Except.ok exParsed) "resources"
        ⟨5, 3⟩ none false).2.map CompletionItem.label = ["\x7bvnet\x7d"])
    ∧ "\x7bvnet\x7d" ≠ "vnet"
    ∧ ((SnippetManager.getSnippetsAsCompletionItems ⟨none⟩ (Except.ok exParsed) "resources"
        ⟨5, 3⟩ none true).2.map CompletionItem.label = ["\x7b\"vnet\"\x7d"])
    ∧ "\x7b\"vnet\"\x7d" ≠ "\"vnet\""
    ∧ ((SnippetManager.getSnippetsAsCompletionItems ⟨none⟩ (Except.ok exParsed) "resources"
        ⟨5, 3⟩ none false).2.map CompletionItem.priority = [CompletionPriority.low])
    ∧ ((SnippetManager.getSnippetsAsCompletionItems ⟨none⟩ (Except.ok exParsed) "resources"
        ⟨5, 3⟩ none false).2.map CompletionItem.span = [⟨5, 3⟩]) :=
  ⟨by decide, by decide, by decide, by decide, by decide, by decide⟩

/-- Claim C8: `getSnippetsAsCompletionItems` never propagates an internal
failure — when the catalogue load fails the result degrades to the empty
completion list, and when it succeeds the result is the item-building
loop's output. -/
theorem getSnippetsAsCompletionItems_degrades_to_empty (c : CachedPromise SnippetMap)
    (source : Except LoadError ParsedSource) (context : String) (span : Span)
    (trig : Option String) (addDoubleQuotes : Bool) :
    (∀ e, (SnippetManager.getMap c source).2.2 = Except.error e →
        (SnippetManager.getSnippetsAsCompletionItems c source context span trig
            addDoubleQuotes).2 = [])
    ∧ (∀ m, (SnippetManager.getMap c source).2.2 = Except.ok m →
        (SnippetManager.getSnippetsAsCompletionItems c source context span trig
            addDoubleQuotes).2 =
          snippetCompletionItemsFor m context span addDoubleQuotes) := by
  constructor
  · intro e he
    simp only [SnippetManager.getSnippetsAsCompletionItems]
    rw [he]
    rfl
  · intro m hm
    simp only [SnippetManager.getSnippetsAsCompletionItems]
    rw [hm]
    rfl

/-- Witness for C8: a concrete failing load (malformed source) degrades to
the empty item list. -/
theorem getSnippetsAsCompletionItems_degrades_to_empty_witness :
    (SnippetManager.getSnippetsAsCompletionItems ⟨none⟩
        (Except.error LoadError.parseError) "resources" ⟨5, 3⟩ none false).2 = [] :=
  (getSnippetsAsCompletionItems_degrades_to_empty ⟨none⟩
      (Except.error LoadError.parseError) "resources" ⟨5, 3⟩ none false).1
    LoadError.parseError rfl
